import Mathlib

/-!
Verification of the transcript acquisition pipeline of the
mom-bot-transcript-service repository against its specification.

The development shallowly embeds the relevant TypeScript sources:
- `src/services/vttParser.ts` (the WebVTT caption-track parser and the
  webhook notification handler bundled with it), and
- `src/services/transcriptFetcher.ts` (meeting-metadata fetch, transcript
  discovery with a bounded retry loop, content fetch, and normalization
  into the canonical `TranscriptData` record).

Strings are processed at the character-list level so that the JavaScript
primitives used by the source (`split`, `trim`, the two regular
expressions, `includes`) can be modelled exactly and reasoned about by
induction. Machine-level concerns (HTTP transport, token acquisition,
stream draining) are abstracted as oracles supplied in an environment
record; everything the claims quantify over is modelled faithfully.
-/

namespace MomBot

/-- JavaScript whitespace as relevant here (the `\s` regex class and
`String.prototype.trim` over the ASCII range; the sources only ever meet
these characters). -/
def isJsWs (c : Char) : Bool :=
  c = ' ' || c = '\t' || c = '\n' || c = '\r' || c = '\x0b' || c = '\x0c'

/-- Model of `String.prototype.trim` on a character list. -/
def trimChars (l : List Char) : List Char :=
  ((l.dropWhile isJsWs).reverse.dropWhile isJsWs).reverse

/-- Model of `String.prototype.split('\n')` on a character list: split on
every newline, keeping empty segments (they are filtered later by the
parser). -/
def splitLines : List Char → List (List Char)
  | [] => [[]]
  | c :: rest =>
    if c = '\n' then [] :: splitLines rest
    else
      match splitLines rest with
      | [] => [[c]]
      | l :: ls => (c :: l) :: ls

/-- Characters matched by the `[\d:\.]` class of the cue time-range
regular expression in `parseVTT` (vttParser.ts line 63). -/
def isTimeChar (c : Char) : Bool :=
  c.isDigit || c = ':' || c = '.'

/-- Does `needle` occur as a prefix of `haystack`? (character lists) -/
def startsWithChars : List Char → List Char → Bool
  | [], _ => true
  | _ :: _, [] => false
  | a :: as, b :: bs => a = b && startsWithChars as bs

/-- Model of `line.includes('-->')` (vttParser.ts line 62). -/
def containsArrow : List Char → Bool
  | [] => false
  | c :: rest => startsWithChars ['-', '-', '>'] (c :: rest) || containsArrow rest

/-- Strip a literal `-->` from the front of a character list. -/
def stripArrow : List Char → Option (List Char)
  | '-' :: '-' :: '>' :: rest => some rest
  | _ => none

/-- Model of matching the anchored time-range regular expression
`^([\d:\.]+)\s+-->\s+([\d:\.]+)$` (vttParser.ts line 63) against a line,
returning the first capture group (the start timestamp). Because the
character classes `[\d:\.]` and `\s` are disjoint from `-` and `>`, the
greedy match is deterministic and is computed directly. -/
def matchTimeRange (line : List Char) : Option (List Char) :=
  let t1 := line.takeWhile isTimeChar
  let r1 := line.dropWhile isTimeChar
  let s1 := r1.takeWhile isJsWs
  let r2 := r1.dropWhile isJsWs
  match stripArrow r2 with
  | none => none
  | some r3 =>
    let s2 := r3.takeWhile isJsWs
    let t2 := r3.dropWhile isJsWs
    if t1.isEmpty || s1.isEmpty || s2.isEmpty || t2.isEmpty || !t2.all isTimeChar then
      none
    else
      some t1

/-- Model of matching `\s+([^>]+)>` right after a literal `<v`, with the
backtracking semantics of the JavaScript engine: `\s+` is greedy, and
when everything up to the first `>` is whitespace the engine backtracks
`\s+` by one character so that `[^>]+` captures the final whitespace
character. Returns the first capture group and the remainder after `>`. -/
def matchTagHead (rest : List Char) : Option (List Char × List Char) :=
  let m := rest.takeWhile isJsWs
  let after := rest.dropWhile isJsWs
  if m.isEmpty then none
  else
    let g := after.takeWhile (fun c => c ≠ '>')
    match after.dropWhile (fun c => c ≠ '>') with
    | '>' :: tail =>
      if g.isEmpty then
        if 2 ≤ m.length then some ([m.getLastD ' '], tail) else none
      else some (g, tail)
    | _ => none

/-- Model of matching `([^<]*)<\/v>` after the opening tag: the capture
runs to the first `<`, which must start a literal `</v>`. -/
def matchTagTail (tail : List Char) : Option (List Char) :=
  let g2 := tail.takeWhile (fun c => c ≠ '<')
  match tail.dropWhile (fun c => c ≠ '<') with
  | '<' :: '/' :: 'v' :: '>' :: _ => some g2
  | _ => none

/-- Attempt to match the speaker-span regular expression
`<v\s+([^>]+)>([^<]*)<\/v>` (vttParser.ts line 70) at the head of the
character list. -/
def trySpeakerAt (cs : List Char) : Option (List Char × List Char) :=
  match cs with
  | '<' :: 'v' :: rest =>
    match matchTagHead rest with
    | some (g1, tail) =>
      match matchTagTail tail with
      | some g2 => some (g1, g2)
      | none => none
    | none => none
  | _ => none

/-- Model of the unanchored (leftmost-match) search of the speaker-span
regular expression over a payload line. -/
def matchSpeakerTag : List Char → Option (List Char × List Char)
  | [] => none
  | c :: rest =>
    match trySpeakerAt (c :: rest) with
    | some r => some r
    | none => matchSpeakerTag rest

/-- One parsed transcript entry (`ParsedTranscriptEntry` in
vttParser.ts). -/
structure ParsedTranscriptEntry where
  timestamp : String
  speaker : String
  text : String
deriving DecidableEq, Repr

/-- Build the entry for one cue: the pattern-matched branch trims both
capture groups; the fallback branch emits speaker `"Unknown"` and the
payload line verbatim (vttParser.ts lines 72-88). -/
def cueEntry (ts : List Char) (payload : List Char) : ParsedTranscriptEntry :=
  match matchSpeakerTag payload with
  | some (g1, g2) =>
    { timestamp := String.mk ts
      speaker := String.mk (trimChars g1)
      text := String.mk (trimChars g2) }
  | none =>
    { timestamp := String.mk ts
      speaker := "Unknown"
      text := String.mk payload }

/-- The cue-scanning loop of `parseVTT` (vttParser.ts lines 58-97): a
line containing `-->` that matches the time-range pattern and is
followed by at least one more line consumes that next line as the cue
payload; every other line is skipped. -/
def parseCueLines : List (List Char) → List ParsedTranscriptEntry
  | [] => []
  | [_] => []
  | line :: payload :: rest =>
    if containsArrow line then
      match matchTimeRange line with
      | some ts => cueEntry ts payload :: parseCueLines rest
      | none => parseCueLines (payload :: rest)
    else parseCueLines (payload :: rest)

/-- Skip the mandatory `WEBVTT` header line if it is the first non-blank
line (vttParser.ts line 56). -/
def skipHeader : List (List Char) → List (List Char)
  | [] => []
  | l :: rest => if l = ['W', 'E', 'B', 'V', 'T', 'T'] then rest else l :: rest

/-- Line tokenization of `parseVTT` (vttParser.ts lines 47-50): split on
newlines, trim each line, drop blank lines. -/
def vttLines (s : String) : List (List Char) :=
  ((splitLines s.toList).map trimChars).filter (fun l => !l.isEmpty)

/-- Model of `parseVTT` (vttParser.ts lines 24-105) on string input. For
a string argument the defensive object/stringify branches are identity
and the surrounding try/catch never fires, so the function is total. -/
def parseVTT (s : String) : List ParsedTranscriptEntry :=
  parseCueLines (skipHeader (vttLines s))

/-! ## Transcript fetcher (src/services/transcriptFetcher.ts) -/

/-- Numeric value of a decimal digit character, if any. -/
def digitVal (c : Char) : Option Nat :=
  if c.isDigit then some (c.toNat - 48) else none

/-- Two-digit decimal field of a timestamp. -/
def twoDigits (a b : Char) : Option Nat := do
  let x ← digitVal a
  let y ← digitVal b
  pure (10 * x + y)

/-- Days since 1970-01-01 of a proleptic-Gregorian civil date
(the standard days-from-civil computation, as performed by the
JavaScript `Date` machinery). -/
def daysFromCivil (y : Int) (m d : Int) : Int :=
  let y' := if m ≤ 2 then y - 1 else y
  let era := Int.fdiv y' 400
  let yoe := y' - era * 400
  let doy := Int.fdiv (153 * (m + (if 2 < m then -3 else 9)) + 2) 5 + d - 1
  let doe := yoe * 365 + Int.fdiv yoe 4 - Int.fdiv yoe 100 + doy
  era * 146097 + doe - 719468

/-- Modelled from the platform: `new Date(s).getTime()` restricted to the
UTC ISO-8601 strings (`YYYY-MM-DDTHH:MM:SSZ`, optionally with `.mmm`
milliseconds) that the remote platform supplies; every other string,
including the empty string substituted for an absent timestamp, yields
an invalid date, i.e. NaN, modelled as `none`. -/
def parseIsoZ (s : String) : Option Int :=
  match s.toList with
  | [y1, y2, y3, y4, '-', m1, m2, '-', d1, d2, 'T', h1, h2, ':', n1, n2, ':', s1, s2, 'Z'] => do
    let yh ← twoDigits y1 y2
    let yl ← twoDigits y3 y4
    let mo ← twoDigits m1 m2
    let da ← twoDigits d1 d2
    let hh ← twoDigits h1 h2
    let mi ← twoDigits n1 n2
    let ss ← twoDigits s1 s2
    let days := daysFromCivil (100 * yh + yl) mo da
    pure (((days * 86400 + hh * 3600 + mi * 60 + ss) : Int) * 1000)
  | [y1, y2, y3, y4, '-', m1, m2, '-', d1, d2, 'T', h1, h2, ':', n1, n2, ':', s1, s2, '.', f1, f2, f3, 'Z'] => do
    let yh ← twoDigits y1 y2
    let yl ← twoDigits y3 y4
    let mo ← twoDigits m1 m2
    let da ← twoDigits d1 d2
    let hh ← twoDigits h1 h2
    let mi ← twoDigits n1 n2
    let ss ← twoDigits s1 s2
    let a ← digitVal f1
    let b ← digitVal f2
    let c ← digitVal f3
    let days := daysFromCivil (100 * yh + yl) mo da
    pure (((days * 86400 + hh * 3600 + mi * 60 + ss) : Int) * 1000 + (100 * a + 10 * b + c))
  | _ => none

/-- JavaScript `Math.round (num / den)` for integers with `den > 0`:
floor of the quotient plus one half. -/
def jsRound (num den : Int) : Int :=
  Int.fdiv (2 * num + den) (2 * den)

/-- Model of `calculateDuration` (transcriptFetcher.ts lines 33-38):
`Math.round((end - start) / 1000 / 60)`; `none` models the NaN produced
when either `new Date(...)` is invalid. -/
def calculateDuration (startDateTime endDateTime : String) : Option Int :=
  match parseIsoZ startDateTime, parseIsoZ endDateTime with
  | some a, some b => some (jsRound (b - a) 60000)
  | _, _ => none

/-- Meeting classification enum (`TranscriptData['meetingType']`). -/
inductive MeetingType where
  | daily
  | techRefinement
  | productRefinement
  | other
deriving DecidableEq, Repr

/-- Does `needle` occur as a substring of the character list? Model of
`String.prototype.includes`. -/
def listContainsSub (needle : List Char) : List Char → Bool
  | [] => needle.isEmpty
  | c :: rest => startsWithChars needle (c :: rest) || listContainsSub needle rest

/-- Model of `title.toLowerCase().includes(w)` for an ASCII keyword. -/
def titleHas (title : List Char) (w : String) : Bool :=
  listContainsSub w.toList title

/-- Model of `determineMeetingType` (transcriptFetcher.ts lines 16-28):
lower-case the title and test the keyword rules in priority order. -/
def determineMeetingType (title : String) : MeetingType :=
  let lt := title.toList.map Char.toLower
  if titleHas lt "daily" || titleHas lt "standup" then .daily
  else if titleHas lt "tech" && titleHas lt "refinement" then .techRefinement
  else if titleHas lt "product" && titleHas lt "refinement" then .productRefinement
  else .other

/-- Model of the JavaScript string-or-default idiom `s || d`: the empty
string and an absent value are falsy. -/
def strOrElse (o : Option String) (d : String) : String :=
  match o with
  | some s => if s = "" then d else s
  | none => d

/-- An `emailAddress` sub-object of a raw participant record; both fields
are untrusted and may be absent. -/
structure EmailAddress where
  name : Option String
  address : Option String
deriving DecidableEq, Repr

/-- A raw participant record; the `emailAddress` sub-object itself may be
absent. -/
structure ParticipantRecord where
  emailAddress : Option EmailAddress
deriving DecidableEq, Repr

/-- Raw meeting metadata as returned by the remote platform
(`MeetingInfo` in types/index.ts); every field access must tolerate
absence, and `attendees` models `participants?.attendees || []`. -/
structure MeetingInfo where
  subject : Option String
  startDateTime : Option String
  endDateTime : Option String
  attendees : List ParticipantRecord
deriving DecidableEq, Repr

/-- One normalized attendee of the canonical record. -/
structure Attendee where
  name : String
  email : String
deriving DecidableEq, Repr

/-- Transcript metadata list element (`TranscriptMetadata`). -/
structure TranscriptMetadata where
  id : String
  createdDateTime : String
deriving DecidableEq, Repr

/-- The canonical output record (`TranscriptData` in types/index.ts).
`duration` is `Option Int`: `none` models the NaN that the source
propagates when a timestamp is absent or malformed. -/
structure TranscriptData where
  meetingId : String
  meetingTitle : String
  meetingType : MeetingType
  date : String
  duration : Option Int
  attendees : List Attendee
  transcript : List ParsedTranscriptEntry
deriving DecidableEq, Repr

/-- Model of the safe attendee mapping (transcriptFetcher.ts lines
210-215): drop records without an `emailAddress` sub-object, then map
with the `||` fallback chain. -/
def mapAttendees (ps : List ParticipantRecord) : List Attendee :=
  (ps.filter (fun p => p.emailAddress.isSome)).map (fun p =>
    let e := p.emailAddress.getD ⟨none, none⟩
    { name := strOrElse e.name (strOrElse e.address "Unknown")
      email := strOrElse e.address "unknown@email.com" })

/-- Outcome of one request to the remote platform: a payload, or an
error carrying the HTTP status code the source inspects. -/
inductive ApiResult (α : Type) where
  | success : α → ApiResult α
  | failure : Nat → ApiResult α
deriving DecidableEq, Repr

/-- Domain-level and transport-level failures surfaced by the fetcher. -/
inductive FetchError where
  | domain (msg : String)
  | transport (statusCode : Nat)
deriving DecidableEq, Repr

/-- The environment of one `fetchTranscript` invocation: the responses
the remote platform would give to the meeting-metadata request, to the
i-th transcript-list request, and to the content request for a given
transcript id (the content oracle already carries decoded text; the
stream-shape normalization of `getTranscriptContent` is orthogonal to
the claims). `nowIso` models `new Date().toISOString()`. -/
structure FetchEnv where
  meetingResp : ApiResult MeetingInfo
  listResp : Nat → ApiResult (Option (List TranscriptMetadata))
  contentResp : String → ApiResult String
  nowIso : String

/-- Model of `getMeetingInfo` (transcriptFetcher.ts lines 45-65): a 404
becomes the domain error `Meeting not found`; any other failure
propagates. -/
def getMeetingInfoM (r : ApiResult MeetingInfo) : Except FetchError MeetingInfo :=
  match r with
  | .success m => .ok m
  | .failure code =>
    if code = 404 then .error (.domain "Meeting not found")
    else .error (.transport code)

/-- Model of `listTranscripts` (transcriptFetcher.ts lines 70-94):
`response.value || []` on success; a 404 is treated as zero transcripts;
any other failure propagates. -/
def listTranscripts (r : ApiResult (Option (List TranscriptMetadata))) :
    Except FetchError (List TranscriptMetadata) :=
  match r with
  | .success v => .ok (v.getD [])
  | .failure code =>
    if code = 404 then .ok []
    else .error (.transport code)

/-- Model of `getTranscriptContent` (transcriptFetcher.ts lines 99-147):
a 404 becomes the domain error `Transcript content not available`; any
other failure propagates; the decoded text is returned on success. -/
def getTranscriptContentM (r : ApiResult String) : Except FetchError String :=
  match r with
  | .success s => .ok s
  | .failure code =>
    if code = 404 then .error (.domain "Transcript content not available")
    else .error (.transport code)

/-- The multi-cause message of the `Transcript not available` failure
(transcriptFetcher.ts lines 188-193). -/
def notAvailableMessage : String :=
  "Transcript not available. Possible reasons:\n" ++
  "1. Transcription was not enabled for this meeting\n" ++
  "2. The meeting just ended and transcript is still processing (try again in a few minutes)\n" ++
  "3. You do not have permissions to access the transcript"

/-- The retry loop of `fetchTranscript` (transcriptFetcher.ts lines
170-185), driven by the remaining number of attempts (`fuel`
= `retryAttempts - attempt`). Returns the number of list calls
performed together with the final transcript list (or a propagated
failure). The fixed inter-attempt delay only suspends the task and has
no observable effect here. -/
def pollLoopAux (env : FetchEnv) (attempt : Nat) :
    Nat → Nat × Except FetchError (List TranscriptMetadata)
  | 0 => (attempt, .ok [])
  | fuel + 1 =>
    match listTranscripts (env.listResp attempt) with
    | .error e => (attempt + 1, .error e)
    | .ok ts =>
      if 0 < ts.length then (attempt + 1, .ok ts)
      else pollLoopAux env (attempt + 1) fuel

/-- The retry loop started at attempt 0 with `retryAttempts` attempts. -/
def pollLoop (env : FetchEnv) (retryAttempts : Nat) :
    Nat × Except FetchError (List TranscriptMetadata) :=
  pollLoopAux env 0 retryAttempts

/-- Normalization of the fetched pieces into the canonical record
(transcriptFetcher.ts lines 209-225). -/
def buildTranscriptData (env : FetchEnv) (meetingId : String) (mi : MeetingInfo)
    (vtt : String) : TranscriptData :=
  { meetingId := meetingId
    meetingTitle := strOrElse mi.subject "Untitled Meeting"
    meetingType := determineMeetingType (strOrElse mi.subject "")
    date := strOrElse mi.startDateTime env.nowIso
    duration := calculateDuration (strOrElse mi.startDateTime "") (strOrElse mi.endDateTime "")
    attendees := mapAttendees mi.attendees
    transcript := parseVTT vtt }

/-- The content-fetch-and-normalize stage entered once a transcript has
been selected (transcriptFetcher.ts lines 196-233): fetch the content of
the selected transcript, parse it, build the record. -/
def contentStage (env : FetchEnv) (meetingId : String) (mi : MeetingInfo)
    (t : TranscriptMetadata) : Except FetchError TranscriptData :=
  match getTranscriptContentM (env.contentResp t.id) with
  | .error e => .error e
  | .ok vtt => .ok (buildTranscriptData env meetingId mi vtt)

/-- Observable outcome of one `fetchTranscript` invocation: how many
transcript-list calls were made, how many content fetches were made, and
the result. -/
structure FetchOutcome where
  listCalls : Nat
  contentCalls : Nat
  result : Except FetchError TranscriptData
deriving Repr

/-- Model of `fetchTranscript` (transcriptFetcher.ts lines 157-238):
meeting metadata, then the bounded poll loop, then the `Transcript not
available` failure on an exhausted empty list, otherwise the content
stage on the first list element. -/
def fetchTranscript (env : FetchEnv) (meetingId : String) (retryAttempts : Nat) :
    FetchOutcome :=
  match getMeetingInfoM env.meetingResp with
  | .error e => ⟨0, 0, .error e⟩
  | .ok mi =>
    match pollLoop env retryAttempts with
    | (calls, .error e) => ⟨calls, 0, .error e⟩
    | (calls, .ok []) => ⟨calls, 0, .error (.domain notAvailableMessage)⟩
    | (calls, .ok (t :: _)) => ⟨calls, 1, contentStage env meetingId mi t⟩

/-! ## Webhook notification intake (src/services/webhookHandler.ts) -/

/-- The fields of a webhook notification relevant at the intake level. -/
structure WebhookNotification where
  changeType : String
  resource : String
deriving DecidableEq, Repr

/-- The request body of a notification delivery: the `value` array may be
absent. An absent body altogether is modelled by `Option` at the use
site. -/
structure NotificationBatch where
  value : Option (List WebhookNotification)
deriving DecidableEq, Repr

/-- Observable events of one notification-handler invocation, in order:
the HTTP response sent, then each dispatched per-notification task with
its eventual outcome. -/
inductive WebhookEvent where
  | respond (status : Nat)
  | processed (n : WebhookNotification) (ok : Bool)
deriving DecidableEq, Repr

/-- Model of `handleWebhookNotification` (webhookHandler.ts lines
195-225): reject an absent or empty batch with 400; otherwise send 202
first and then dispatch every notification independently, each failure
being caught and logged (`ok := false`) without affecting the others or
the already-sent response. `outcome` is the oracle saying whether the
asynchronous processing of a notification eventually succeeds. -/
def handleWebhookNotification (body : Option NotificationBatch)
    (outcome : WebhookNotification → Bool) : List WebhookEvent :=
  match body with
  | none => [.respond 400]
  | some b =>
    match b.value with
    | none => [.respond 400]
    | some [] => [.respond 400]
    | some (n :: ns) =>
      .respond 202 :: (n :: ns).map (fun m => .processed m (outcome m))

/-- The accepted batch of a request body, if any: `some` exactly when the
body is present with a non-empty `value` array. -/
def batchOf (body : Option NotificationBatch) : Option (List WebhookNotification) :=
  match body with
  | some ⟨some (n :: ns)⟩ => some (n :: ns)
  | _ => none

/-! ## Poll-loop lemmas -/

/-- If every attempt the loop can reach yields an empty list, the loop
performs exactly `fuel` further list calls and ends with the empty
list. -/
lemma pollLoopAux_all_empty (env : FetchEnv) :
    ∀ (fuel a : Nat),
      (∀ i, a ≤ i → i < a + fuel → listTranscripts (env.listResp i) = .ok []) →
      pollLoopAux env a fuel = (a + fuel, .ok []) := by
  intro fuel
  induction fuel with
  | zero => intro a _; simp [pollLoopAux]
  | succ fuel ih =>
    intro a h
    have h0 : listTranscripts (env.listResp a) = .ok [] :=
      h a (Nat.le_refl a) (by omega)
    have ih' := ih (a + 1) (fun i hi hi2 => h i (by omega) (by omega))
    simp [pollLoopAux, h0, ih']
    omega

/-- If attempts before the `k`-th yield empty lists and the `k`-th
(0-indexed `k - 1`) yields a non-empty list reachable within the fuel,
the loop stops there having performed exactly `k` list calls. -/
lemma pollLoopAux_found (env : FetchEnv) :
    ∀ (fuel a k : Nat) (t : TranscriptMetadata) (rest : List TranscriptMetadata),
      a < k → k ≤ a + fuel →
      (∀ i, a ≤ i → i + 1 < k → listTranscripts (env.listResp i) = .ok []) →
      listTranscripts (env.listResp (k - 1)) = .ok (t :: rest) →
      pollLoopAux env a fuel = (k, .ok (t :: rest)) := by
  intro fuel
  induction fuel with
  | zero => intro a k t rest h1 h2 _ _; omega
  | succ fuel ih =>
    intro a k t rest h1 h2 hemp hfind
    by_cases hak : a + 1 = k
    · have ha : a = k - 1 := by omega
      rw [ha] at *
      simp [pollLoopAux, hfind]
      omega
    · have h0 : listTranscripts (env.listResp a) = .ok [] :=
        hemp a (Nat.le_refl a) (by omega)
      have ih' := ih (a + 1) k t rest (by omega) (by omega)
        (fun i hi hi2 => hemp i (by omega) hi2) hfind
      simp [pollLoopAux, h0, ih']

/-! ## Claims C1, C2, C3 -/

/-- C1: for every maximum attempt count `N ≥ 1`, if listing transcripts
returns an empty list on every attempt before attempt `k` and a
non-empty list on attempt `k` (`1 ≤ k ≤ N`), then `fetchTranscript`
performs exactly `k` list calls, stops polling immediately, and proceeds
to fetch the content of the first element of that list (exactly one
content fetch, on the head of the non-empty list). -/
theorem fetchTranscript_polls_exactly_k_then_fetches_content :
    ∀ (env : FetchEnv) (mid : String) (N k : Nat) (mi : MeetingInfo)
      (t : TranscriptMetadata) (rest : List TranscriptMetadata),
      1 ≤ k → k ≤ N →
      env.meetingResp = .success mi →
      (∀ i, i + 1 < k → listTranscripts (env.listResp i) = .ok []) →
      listTranscripts (env.listResp (k - 1)) = .ok (t :: rest) →
      fetchTranscript env mid N = ⟨k, 1, contentStage env mid mi t⟩ := by
  intro env mid N k mi t rest h1 h2 hm hemp hfind
  have hp : pollLoop env N = (k, .ok (t :: rest)) := by
    simpa [pollLoop] using
      pollLoopAux_found env N 0 k t rest (by omega) (by omega)
        (fun i _ hi => hemp i hi) hfind
  simp [fetchTranscript, hm, getMeetingInfoM, hp]

/-- C1 witness: empty lists on attempts 1 and 2 and a non-empty list on
attempt 3 out of a maximum of 3 yield success with exactly 3 list
calls. -/
def envC1 : FetchEnv :=
  { meetingResp := .success ⟨some "Daily", some "2026-02-04T09:00:00Z",
      some "2026-02-04T09:15:00Z", []⟩
    listResp := fun i => if i < 2 then .success (some []) else .success (some [⟨"tr1", "c1"⟩])
    contentResp := fun _ => .success "WEBVTT"
    nowIso := "2026-01-01T00:00:00Z" }

/-- C1 witness: the three-attempt discovery scenario of the spec
succeeds with exactly 3 list calls and one content fetch. -/
theorem fetchTranscript_three_attempts_success_witness :
    fetchTranscript envC1 "m1" 3 =
      ⟨3, 1, contentStage envC1 "m1"
        ⟨some "Daily", some "2026-02-04T09:00:00Z", some "2026-02-04T09:15:00Z", []⟩
        ⟨"tr1", "c1"⟩⟩ ∧
    (fetchTranscript envC1 "m1" 3).result =
      .ok ⟨"m1", "Daily", .daily, "2026-02-04T09:00:00Z", some 15, [], []⟩ := by
  refine ⟨?_, by rfl⟩
  exact fetchTranscript_polls_exactly_k_then_fetches_content envC1 "m1" 3 3
    ⟨some "Daily", some "2026-02-04T09:00:00Z", some "2026-02-04T09:15:00Z", []⟩
    ⟨"tr1", "c1"⟩ [] (by omega) (by omega) rfl
    (fun i hi => by
      have : i = 0 ∨ i = 1 := by omega
      rcases this with h | h <;> subst h <;> rfl)
    (by rfl)

/-- C2: if listing transcripts returns an empty list on every attempt,
`fetchTranscript` performs exactly `N` list calls, never fetches
transcript content, and fails with the domain-level `Transcript not
available` error whose message enumerates the three known causes. -/
theorem fetchTranscript_exhausts_attempts_not_available :
    ∀ (env : FetchEnv) (mid : String) (N : Nat) (mi : MeetingInfo),
      1 ≤ N →
      env.meetingResp = .success mi →
      (∀ i, i < N → listTranscripts (env.listResp i) = .ok []) →
      fetchTranscript env mid N = ⟨N, 0, .error (.domain notAvailableMessage)⟩ := by
  intro env mid N mi _ hm hemp
  have hp : pollLoop env N = (N, .ok []) := by
    simpa [pollLoop] using
      pollLoopAux_all_empty env N 0 (fun i _ hi => hemp i (by omega))
  simp [fetchTranscript, hm, getMeetingInfoM, hp]

/-- C2 witness environment: the transcript list is empty on every
attempt. -/
def envC2 : FetchEnv :=
  { meetingResp := .success ⟨some "Daily", none, none, []⟩
    listResp := fun _ => .success (some [])
    contentResp := fun _ => .success "WEBVTT"
    nowIso := "now" }

/-- C2 witness: with three attempts and an always-empty list the fetch
makes exactly 3 list calls, no content fetch, and fails with the
multi-cause `Transcript not available` message. -/
theorem fetchTranscript_exhausted_witness :
    fetchTranscript envC2 "m2" 3 = ⟨3, 0, .error (.domain notAvailableMessage)⟩ :=
  fetchTranscript_exhausts_attempts_not_available envC2 "m2" 3
    ⟨some "Daily", none, none, []⟩ (by omega) rfl (fun i _ => rfl)

/-- C3: a `not found` (404) response to the transcript-list request is
treated as zero transcripts available rather than an error, so the poll
loop keeps retrying (and, when every attempt 404s, runs to exhaustion
with an empty list); any other list-request failure propagates as a
transport error. -/
theorem listTranscripts_notFound_empty :
    ∀ (code : Nat) (env : FetchEnv) (N : Nat),
      listTranscripts (.failure 404) = .ok ([] : List TranscriptMetadata) ∧
      (code ≠ 404 →
        listTranscripts
          (ApiResult.failure code : ApiResult (Option (List TranscriptMetadata))) =
          .error (.transport code)) ∧
      ((∀ i, env.listResp i = .failure 404) → pollLoop env N = (N, .ok [])) := by
  intro code env N
  refine ⟨rfl, ?_, ?_⟩
  · intro h
    simp [listTranscripts, h]
  · intro h
    simpa [pollLoop] using
      pollLoopAux_all_empty env N 0 (fun i _ _ => by rw [h i]; rfl)

/-- C3 witness environment: every list request 404s. -/
def envC3 : FetchEnv :=
  { meetingResp := .success ⟨none, none, none, []⟩
    listResp := fun _ => .failure 404
    contentResp := fun _ => .failure 404
    nowIso := "now" }

/-- C3 witness: a 404 gives the empty list, a 500 propagates as a
transport error, and a loop of two 404-answered attempts retries to
exhaustion with an empty list. -/
theorem listTranscripts_notFound_empty_witness :
    listTranscripts (.failure 404) = .ok ([] : List TranscriptMetadata) ∧
    listTranscripts
      (ApiResult.failure 500 : ApiResult (Option (List TranscriptMetadata))) =
      .error (.transport 500) ∧
    pollLoop envC3 2 = (2, .ok []) := by
  have h := listTranscripts_notFound_empty 500 envC3 2
  exact ⟨h.1, h.2.1 (by omega), h.2.2 (fun i => rfl)⟩

/-! ## Claim C6: duration -/

/-- Environment exhibiting a meeting whose reported end precedes its
start. -/
def envC6 : FetchEnv :=
  { meetingResp := .success ⟨some "Weekly sync",
      some "2026-02-04T09:15:00Z", some "2026-02-04T09:00:00Z", []⟩
    listResp := fun _ => .success (some [⟨"tr1", "c1"⟩])
    contentResp := fun _ => .success "WEBVTT"
    nowIso := "2026-01-01T00:00:00Z" }

/-- C6 counterexample: when the reported end precedes the start the
duration produced by `fetchTranscript` is negative (`-15` for a
15-minute inversion), so it is not always a non-negative integer. -/
theorem duration_negative_counterexample :
    Except.map TranscriptData.duration (fetchTranscript envC6 "m6" 1).result =
      .ok (some (-15)) ∧
    calculateDuration "2026-02-04T09:15:00Z" "2026-02-04T09:00:00Z" = some (-15) ∧
    ¬ (∀ (s e : String) (d : Int), calculateDuration s e = some d → 0 ≤ d) := by
  refine ⟨by rfl, by rfl, ?_⟩
  intro hall
  have h := hall "2026-02-04T09:15:00Z" "2026-02-04T09:00:00Z" (-15) (by rfl)
  omega

/-- C6 amended: the duration is `round((end − start) ms / 60000)`, an
integer whenever both timestamps parse as dates; it is non-negative
whenever the parsed end is at or after the parsed start, and it is NaN
(modelled `none`) when a timestamp is absent or malformed — it is not
non-negative unconditionally. -/
theorem calculateDuration_nonneg_of_ordered :
    ∀ (s e : String) (a b : Int),
      parseIsoZ s = some a → parseIsoZ e = some b →
      calculateDuration s e = some (jsRound (b - a) 60000) ∧
      (a ≤ b → 0 ≤ jsRound (b - a) 60000) ∧
      (∀ e2 : String, calculateDuration "" e2 = none) := by
  intro s e a b ha hb
  refine ⟨by simp [calculateDuration, ha, hb], ?_, ?_⟩
  · intro hab
    unfold jsRound
    apply Int.fdiv_nonneg <;> omega
  · intro e2
    have h0 : parseIsoZ "" = none := rfl
    cases he : parseIsoZ e2 <;> simp [calculateDuration, h0, he]

/-- C6 witness: the spec's own example (09:00 to 09:15) yields exactly
15 whole non-negative minutes. -/
theorem calculateDuration_spec_example_witness :
    calculateDuration "2026-02-04T09:00:00Z" "2026-02-04T09:15:00Z" = some 15 ∧
    0 ≤ jsRound (1770196500000 - 1770195600000) 60000 ∧
    calculateDuration "" "2026-02-04T09:15:00Z" = none := by
  have h := calculateDuration_nonneg_of_ordered
    "2026-02-04T09:00:00Z" "2026-02-04T09:15:00Z"
    1770195600000 1770196500000 (by rfl) (by rfl)
  exact ⟨h.1.trans (by decide), h.2.1 (by decide), h.2.2 "2026-02-04T09:15:00Z"⟩

/-! ## Claim C7: attendee emails -/

/-- Every attendee produced by the safe attendee mapping carries a
non-empty email. -/
lemma mapAttendees_email_ne_empty :
    ∀ (ps : List ParticipantRecord), ∀ a ∈ mapAttendees ps, a.email ≠ "" := by
  intro ps a ha
  simp only [mapAttendees, List.mem_map, List.mem_filter] at ha
  obtain ⟨p, _, hp⟩ := ha
  subst hp
  simp only [strOrElse]
  cases (p.emailAddress.getD ⟨none, none⟩).address with
  | none => simp
  | some s =>
    by_cases hs : s = "" <;> simp [hs]

/-- C7: in every canonical record produced by `fetchTranscript` the
attendee email is never the empty string; a participant record lacking
the `emailAddress` sub-object is filtered out; and a record with a name
but no address gets the sentinel placeholder address. -/
theorem attendees_email_never_empty :
    (∀ (env : FetchEnv) (mid : String) (N : Nat) (td : TranscriptData),
        (fetchTranscript env mid N).result = .ok td →
        ∀ a ∈ td.attendees, a.email ≠ "") ∧
    (∀ p : ParticipantRecord, p.emailAddress = none → mapAttendees [p] = []) ∧
    (∀ (p : ParticipantRecord) (e : EmailAddress),
        p.emailAddress = some e → e.address = none →
        ∀ a ∈ mapAttendees [p], a.email = "unknown@email.com") := by
  refine ⟨?_, ?_, ?_⟩
  · intro env mid N td h a ha
    unfold fetchTranscript at h
    cases hg : getMeetingInfoM env.meetingResp with
    | error e => rw [hg] at h; simp at h
    | ok mi =>
      rw [hg] at h
      rcases hres : pollLoop env N with ⟨calls, res⟩
      rw [hres] at h
      match res with
      | .error e => simp at h
      | .ok [] => simp [notAvailableMessage] at h
      | .ok (t :: ts) =>
        simp only [contentStage] at h
        cases hc : getTranscriptContentM (env.contentResp t.id) with
        | error e => rw [hc] at h; simp at h
        | ok vtt =>
          rw [hc] at h
          simp only [Except.ok.injEq] at h
          subst h
          exact mapAttendees_email_ne_empty mi.attendees a ha
  · intro p hp
    simp [mapAttendees, hp]
  · intro p e hp he a ha
    simp [mapAttendees, hp, he, strOrElse] at ha
    simp [ha]

/-- C7 witness participant records: one without an `emailAddress`
sub-object, one with a name but no address. -/
def envC7 : FetchEnv :=
  { meetingResp := .success ⟨some "Standup", none, none,
      [⟨none⟩, ⟨some ⟨some "Alice", none⟩⟩]⟩
    listResp := fun _ => .success (some [⟨"tr1", "c1"⟩])
    contentResp := fun _ => .success "WEBVTT"
    nowIso := "2026-01-01T00:00:00Z" }

/-- C7 witness: in the record produced from `envC7` the only surviving
attendee is Alice with the sentinel address, which is not empty. -/
theorem attendees_email_never_empty_witness :
    (Attendee.mk "Alice" "unknown@email.com").email ≠ "" ∧
    mapAttendees [⟨none⟩] = [] ∧
    (Attendee.mk "Alice" "unknown@email.com").email = "unknown@email.com" := by
  have h := attendees_email_never_empty
  refine ⟨?_, h.2.1 ⟨none⟩ rfl, ?_⟩
  · exact h.1 envC7 "m7" 1
      ⟨"m7", "Standup", .daily, "2026-01-01T00:00:00Z", none,
        [⟨"Alice", "unknown@email.com"⟩], []⟩
      (by rfl) ⟨"Alice", "unknown@email.com"⟩ (by simp)
  · exact h.2.2 ⟨some ⟨some "Alice", none⟩⟩ ⟨some "Alice", none⟩ rfl rfl
      ⟨"Alice", "unknown@email.com"⟩ (by simp [mapAttendees, strOrElse])

/-! ## Claim C8: webhook notification intake -/

/-- C8: the notification handler responds 400 exactly when the batch is
absent or empty; otherwise its event trace starts with the 202 response
followed by one processing event per notification, so acknowledgment
precedes all processing, the response is independent of the processing
outcomes, and every sibling notification is processed whatever the
outcomes of the others. -/
theorem handleWebhookNotification_ack_then_process :
    ∀ (body : Option NotificationBatch) (f : WebhookNotification → Bool),
      (batchOf body = none → handleWebhookNotification body f = [.respond 400]) ∧
      (∀ ns, batchOf body = some ns →
        handleWebhookNotification body f =
          .respond 202 :: ns.map (fun m => .processed m (f m))) ∧
      (∀ g, (handleWebhookNotification body f).head? =
        (handleWebhookNotification body g).head?) ∧
      (∀ ns n, batchOf body = some ns → n ∈ ns →
        .processed n (f n) ∈ handleWebhookNotification body f) := by
  intro body f
  match body with
  | none => simp [batchOf, handleWebhookNotification]
  | some ⟨none⟩ => simp [batchOf, handleWebhookNotification]
  | some ⟨some []⟩ => simp [batchOf, handleWebhookNotification]
  | some ⟨some (n :: ns)⟩ =>
    refine ⟨by simp [batchOf], ?_, ?_, ?_⟩
    · intro ns' h
      simp only [batchOf, Option.some.injEq] at h
      subst h
      rfl
    · intro g
      simp [handleWebhookNotification]
    · intro ns' m h hm
      simp only [batchOf, Option.some.injEq] at h
      subst h
      simp only [handleWebhookNotification, List.mem_cons]
      right
      exact List.mem_map.mpr ⟨m, hm, rfl⟩

/-- C8 witness batch: two notifications, the second of which fails while
being processed. -/
def bodyC8 : Option NotificationBatch :=
  some ⟨some [⟨"updated", "/communications/onlineMeetings/abc"⟩,
    ⟨"updated", "/communications/onlineMeetings/def"⟩]⟩

/-- C8 witness processing oracle: processing succeeds exactly for the
first resource. -/
def outcomeC8 (n : WebhookNotification) : Bool :=
  n.resource = "/communications/onlineMeetings/abc"

/-- C8 witness: on a two-element batch the trace is the 202 response
followed by both processing events, the failure of the second changing
neither; the empty batch gets a 400. -/
theorem handleWebhookNotification_witness :
    handleWebhookNotification bodyC8 outcomeC8 =
      [.respond 202,
       .processed ⟨"updated", "/communications/onlineMeetings/abc"⟩ true,
       .processed ⟨"updated", "/communications/onlineMeetings/def"⟩ false] ∧
    handleWebhookNotification (some ⟨some []⟩) outcomeC8 = [.respond 400] := by
  have h := handleWebhookNotification_ack_then_process bodyC8 outcomeC8
  have h2 := handleWebhookNotification_ack_then_process (some ⟨some []⟩) outcomeC8
  exact ⟨(h.2.1 _ rfl).trans (by decide), h2.1 rfl⟩

/-! ## Claim C10: malformed cues degrade, never error -/

/-- C10: in the embedding `parseVTT` is a total function on strings, and
malformed material is skipped or degraded rather than erroring: a line
containing `-->` that fails the time-range pattern is skipped; a
trailing time-range line with no payload line produces nothing; a
payload that fails the speaker pattern degrades to an `Unknown` entry
holding the payload line. -/
theorem parseVTT_malformed_cues_skipped :
    ∀ (bad tline payload ts : List Char) (rest : List (List Char)),
      (containsArrow bad = true → matchTimeRange bad = none →
        parseCueLines (bad :: rest) = parseCueLines rest) ∧
      (matchTimeRange tline = some ts → parseCueLines [tline] = []) ∧
      (matchSpeakerTag payload = none →
        cueEntry ts payload = ⟨String.mk ts, "Unknown", String.mk payload⟩) := by
  intro bad tline payload ts rest
  refine ⟨?_, ?_, ?_⟩
  · intro h1 h2
    cases rest with
    | nil => rfl
    | cons p r => simp [parseCueLines, h1, h2]
  · intro _
    rfl
  · intro h
    simp [cueEntry, h]

/-- C10 witness: a broken time-range line is skipped, a payload-less
final cue line yields nothing, and an untagged payload degrades to an
`Unknown` entry. -/
theorem parseVTT_malformed_cues_skipped_witness :
    parseCueLines ["--> broken".toList] = parseCueLines [] ∧
    parseCueLines ["00:01 --> 00:02".toList] = [] ∧
    cueEntry "00:01".toList "hello".toList = ⟨"00:01", "Unknown", "hello"⟩ := by
  have h := parseVTT_malformed_cues_skipped "--> broken".toList
    "00:01 --> 00:02".toList "hello".toList "00:01".toList []
  exact ⟨h.1 (by decide) (by decide), h.2.1 (by decide), h.2.2 (by decide)⟩

/-! ## Claim C5: fallback entries and trimming -/

/-- C5 counterexample: tokenization trims every line before the cue loop
runs, so the `Unknown`-fallback text is the trimmed payload line, not
the raw untrimmed payload line of the source text (here `  hello  `). -/
theorem parseVTT_fallback_text_trimmed_counterexample :
    parseVTT "WEBVTT\n00:00:05.000 --> 00:00:10.000\n  hello  " =
      [⟨"00:00:05.000", "Unknown", "hello"⟩] ∧
    "hello" ≠ "  hello  " := by
  exact ⟨by rfl, by decide⟩

/-! ## List helper lemmas for the parser proofs -/

lemma takeWhile_append_all {α : Type} (p : α → Bool) :
    ∀ (xs ys : List α), (∀ x ∈ xs, p x = true) →
      (xs ++ ys).takeWhile p = xs ++ ys.takeWhile p := by
  intro xs ys h
  induction xs with
  | nil => simp
  | cons a l ih =>
    have ha : p a = true := h a (List.mem_cons_self a l)
    simp [List.takeWhile_cons_of_pos ha,
      ih (fun x hx => h x (List.mem_cons_of_mem a hx))]

lemma dropWhile_append_all {α : Type} (p : α → Bool) :
    ∀ (xs ys : List α), (∀ x ∈ xs, p x = true) →
      (xs ++ ys).dropWhile p = ys.dropWhile p := by
  intro xs ys h
  induction xs with
  | nil => simp
  | cons a l ih =>
    have ha : p a = true := h a (List.mem_cons_self a l)
    simp [List.dropWhile_cons_of_pos ha,
      ih (fun x hx => h x (List.mem_cons_of_mem a hx))]

/-- Is the head (if any) a non-whitespace character? -/
def headNotWs : List Char → Bool
  | [] => true
  | c :: _ => !isJsWs c

/-- Is the last character (if any) non-whitespace? -/
def lastNotWs (l : List Char) : Bool := headNotWs l.reverse

lemma dropWhile_ws_eq_self : ∀ l : List Char, headNotWs l = true →
    l.dropWhile isJsWs = l := by
  intro l h
  cases l with
  | nil => rfl
  | cons c t =>
    simp only [headNotWs, Bool.not_eq_true'] at h
    have hne : ¬ isJsWs c = true := by simp [h]
    simp [List.dropWhile_cons_of_neg hne]

lemma trimChars_eq_self (l : List Char) (h1 : headNotWs l = true)
    (h2 : lastNotWs l = true) : trimChars l = l := by
  unfold trimChars
  rw [dropWhile_ws_eq_self l h1, dropWhile_ws_eq_self l.reverse h2,
    List.reverse_reverse]

lemma headNotWs_append (xs ys : List Char) (h : xs ≠ []) :
    headNotWs (xs ++ ys) = headNotWs xs := by
  cases xs with
  | nil => exact absurd rfl h
  | cons c t => rfl

lemma lastNotWs_append (xs ys : List Char) (h : ys ≠ []) :
    lastNotWs (xs ++ ys) = lastNotWs ys := by
  unfold lastNotWs
  rw [List.reverse_append]
  exact headNotWs_append _ _ (by simpa using h)

lemma timeChar_not_ws : ∀ c : Char, isTimeChar c = true → isJsWs c = false := by
  intro c h
  cases hw : isJsWs c with
  | false => rfl
  | true =>
    exfalso
    simp only [isJsWs, Bool.or_eq_true, decide_eq_true_eq] at hw
    rcases hw with ((((h1 | h1) | h1) | h1) | h1) | h1 <;> subst h1 <;>
      exact absurd h (by decide)

lemma headNotWs_of_all_time (l : List Char) (h : ∀ c ∈ l, isTimeChar c = true) :
    headNotWs l = true := by
  cases l with
  | nil => rfl
  | cons c t =>
    simp [headNotWs, timeChar_not_ws c (h c (List.mem_cons_self c t))]

lemma lastNotWs_of_all_time (l : List Char) (h : ∀ c ∈ l, isTimeChar c = true) :
    lastNotWs l = true :=
  headNotWs_of_all_time l.reverse (fun c hc => h c (List.mem_reverse.mp hc))

/-! ## Line splitting and joining -/

/-- Join a list of lines with newlines (the inverse direction of
`splitLines`, used to build test documents for the parser claims). -/
def joinLines : List (List Char) → List Char
  | [] => []
  | [l] => l
  | l :: ls => l ++ '\n' :: joinLines ls

lemma splitLines_no_nl : ∀ l : List Char, (∀ ch ∈ l, ch ≠ '\n') →
    splitLines l = [l] := by
  intro l h
  induction l with
  | nil => rfl
  | cons c t ih =>
    have hc : ¬ c = '\n' := h c (List.mem_cons_self c t)
    simp [splitLines, hc, ih (fun x hx => h x (List.mem_cons_of_mem c hx))]

lemma splitLines_append_nl : ∀ (l rest : List Char), (∀ ch ∈ l, ch ≠ '\n') →
    splitLines (l ++ '\n' :: rest) = l :: splitLines rest := by
  intro l rest h
  induction l with
  | nil => simp [splitLines]
  | cons c t ih =>
    have hc : ¬ c = '\n' := h c (List.mem_cons_self c t)
    have ih' := ih (fun x hx => h x (List.mem_cons_of_mem c hx))
    show splitLines (c :: (t ++ '\n' :: rest)) = (c :: t) :: splitLines rest
    simp only [splitLines, if_neg hc, ih']

lemma splitLines_joinLines : ∀ ls : List (List Char), ls ≠ [] →
    (∀ l ∈ ls, ∀ ch ∈ l, ch ≠ '\n') →
    splitLines (joinLines ls) = ls := by
  intro ls
  induction ls with
  | nil => intro h; exact absurd rfl h
  | cons l ls ih =>
    intro _ h
    cases ls with
    | nil =>
      exact splitLines_no_nl l (h l (List.mem_cons_self l []))
    | cons l2 ls2 =>
      have hd : joinLines (l :: l2 :: ls2) = l ++ '\n' :: joinLines (l2 :: ls2) := rfl
      rw [hd, splitLines_append_nl l _ (h l (List.mem_cons_self l _)),
        ih (by simp) (fun x hx => h x (List.mem_cons_of_mem l hx))]

/-! ## Rendering of well-formed cues (harness for the parser claims) -/

/-- A raw cue to be rendered into caption-track text: a start and an end
timestamp, a speaker name and the spoken text. -/
structure RawCue where
  startTs : List Char
  endTs : List Char
  name : List Char
  text : List Char

/-- The time-range line of a rendered cue: `start --> end`. -/
def tsLineChars (c : RawCue) : List Char :=
  c.startTs ++ ' ' :: '-' :: '-' :: '>' :: ' ' :: c.endTs

/-- The payload line of a rendered cue: `<v name>text</v>`. -/
def payloadChars (c : RawCue) : List Char :=
  '<' :: 'v' :: ' ' :: (c.name ++ '>' :: (c.text ++ ['<', '/', 'v', '>']))

/-- Structural well-formedness of a cue: both timestamps are non-empty
runs of time characters; the name is non-empty with non-whitespace ends
and contains neither `>` nor a newline; the text contains neither `<`
nor a newline. -/
def wfCueCore (c : RawCue) : Bool :=
  !c.startTs.isEmpty && c.startTs.all isTimeChar &&
  !c.endTs.isEmpty && c.endTs.all isTimeChar &&
  !c.name.isEmpty && headNotWs c.name && lastNotWs c.name &&
  c.name.all (fun ch => !(ch = '>' : Bool) && !(ch = '\n' : Bool)) &&
  c.text.all (fun ch => !(ch = '<' : Bool) && !(ch = '\n' : Bool))

/-- The entry that a well-formed cue parses to: the start timestamp
verbatim, the trimmed name, the trimmed text. -/
def cueToEntry (c : RawCue) : ParsedTranscriptEntry :=
  ⟨String.mk c.startTs, String.mk (trimChars c.name), String.mk (trimChars c.text)⟩

lemma not_isEmpty_ne_nil {α : Type} (l : List α) (h : (!l.isEmpty) = true) : l ≠ [] := by
  intro hn
  subst hn
  simp at h

/-- Unpacked form of `wfCueCore`. -/
lemma wfCueCore_spec (c : RawCue) (h : wfCueCore c = true) :
    c.startTs ≠ [] ∧ (∀ ch ∈ c.startTs, isTimeChar ch = true) ∧
    c.endTs ≠ [] ∧ (∀ ch ∈ c.endTs, isTimeChar ch = true) ∧
    c.name ≠ [] ∧ headNotWs c.name = true ∧ lastNotWs c.name = true ∧
    (∀ ch ∈ c.name, ch ≠ '>' ∧ ch ≠ '\n') ∧
    (∀ ch ∈ c.text, ch ≠ '<' ∧ ch ≠ '\n') := by
  simp only [wfCueCore, Bool.and_eq_true] at h
  obtain ⟨⟨⟨⟨⟨⟨⟨⟨h1, h2⟩, h3⟩, h4⟩, h5⟩, h6⟩, h7⟩, h8⟩, h9⟩ := h
  refine ⟨not_isEmpty_ne_nil _ h1, ?_, not_isEmpty_ne_nil _ h3, ?_,
    not_isEmpty_ne_nil _ h5, h6, h7, ?_, ?_⟩
  · exact fun ch hch => List.all_eq_true.mp h2 ch hch
  · exact fun ch hch => List.all_eq_true.mp h4 ch hch
  · intro ch hch
    have := List.all_eq_true.mp h8 ch hch
    simpa using this
  · intro ch hch
    have := List.all_eq_true.mp h9 ch hch
    simpa using this

lemma containsArrow_append_arrow :
    ∀ (xs rest : List Char), containsArrow (xs ++ '-' :: '-' :: '>' :: rest) = true := by
  intro xs rest
  induction xs with
  | nil => simp [containsArrow, startsWithChars]
  | cons c t ih => simp [containsArrow, ih]

/-- The time-range line of a rendered cue contains `-->`. -/
lemma containsArrow_tsLine (c : RawCue) : containsArrow (tsLineChars c) = true := by
  have h : tsLineChars c = (c.startTs ++ [' ']) ++ '-' :: '-' :: '>' :: (' ' :: c.endTs) := by
    simp [tsLineChars]
  rw [h]
  exact containsArrow_append_arrow _ _

lemma takeWhile_ws_eq_nil (l : List Char) (h : headNotWs l = true) :
    l.takeWhile isJsWs = [] := by
  cases l with
  | nil => rfl
  | cons c t =>
    simp only [headNotWs, Bool.not_eq_true'] at h
    exact List.takeWhile_cons_of_neg (by simp [h])

/-- A well-formed time-range line matches the time-range pattern with
the start timestamp as the capture. -/
lemma matchTimeRange_tsLine (c : RawCue) (h : wfCueCore c = true) :
    matchTimeRange (tsLineChars c) = some c.startTs := by
  obtain ⟨h1, h2, _, h4, _, _, _, _, _⟩ := wfCueCore_spec c h
  have hend : headNotWs c.endTs = true := headNotWs_of_all_time c.endTs h4
  have e1 : (tsLineChars c).takeWhile isTimeChar = c.startTs := by
    unfold tsLineChars
    rw [takeWhile_append_all isTimeChar _ _ h2,
      List.takeWhile_cons_of_neg (by decide), List.append_nil]
  have e2 : (tsLineChars c).dropWhile isTimeChar =
      ' ' :: '-' :: '-' :: '>' :: ' ' :: c.endTs := by
    unfold tsLineChars
    rw [dropWhile_append_all isTimeChar _ _ h2,
      List.dropWhile_cons_of_neg (by decide)]
  have e3 : List.takeWhile isJsWs (' ' :: '-' :: '-' :: '>' :: ' ' :: c.endTs) = [' '] := by
    rw [List.takeWhile_cons_of_pos (by decide), List.takeWhile_cons_of_neg (by decide)]
  have e4 : List.dropWhile isJsWs (' ' :: '-' :: '-' :: '>' :: ' ' :: c.endTs) =
      '-' :: '-' :: '>' :: ' ' :: c.endTs := by
    rw [List.dropWhile_cons_of_pos (by decide), List.dropWhile_cons_of_neg (by decide)]
  have e5 : List.takeWhile isJsWs (' ' :: c.endTs) = [' '] := by
    rw [List.takeWhile_cons_of_pos (by decide), takeWhile_ws_eq_nil c.endTs hend]
  have e6 : List.dropWhile isJsWs (' ' :: c.endTs) = c.endTs := by
    rw [List.dropWhile_cons_of_pos (by decide)]
    exact dropWhile_ws_eq_self c.endTs hend
  simp only [matchTimeRange, e1, e2, e3, e4, stripArrow, e5, e6]
  have hne : c.startTs.isEmpty = false := by
    cases hs : c.startTs with
    | nil => exact absurd hs h1
    | cons a t => rfl
  have hne2 : c.endTs.isEmpty = false := by
    cases hs : c.endTs with
    | nil =>
      exfalso
      obtain ⟨_, _, h3, _⟩ := wfCueCore_spec c h
      exact h3 hs
    | cons a t => rfl
  simp [hne, hne2, List.all_eq_true.mpr h4]

/-- A well-formed payload line matches the speaker-span pattern at its
head, capturing exactly the name and the text. -/
lemma matchSpeakerTag_payload (c : RawCue) (h : wfCueCore c = true) :
    matchSpeakerTag (payloadChars c) = some (c.name, c.text) := by
  obtain ⟨_, _, _, _, h5, h6, _, h8, h9⟩ := wfCueCore_spec c h
  have hnamegt : ∀ ch ∈ c.name, (fun ch => ch ≠ '>' : Char → Bool) ch = true := by
    intro ch hch
    simpa using (h8 ch hch).1
  have htextlt : ∀ ch ∈ c.text, (fun ch => ch ≠ '<' : Char → Bool) ch = true := by
    intro ch hch
    simpa using (h9 ch hch).1
  have eHead : matchTagHead (' ' :: (c.name ++ '>' :: (c.text ++ ['<', '/', 'v', '>']))) =
      some (c.name, c.text ++ ['<', '/', 'v', '>']) := by
    have em : List.takeWhile isJsWs (' ' :: (c.name ++ '>' :: (c.text ++ ['<', '/', 'v', '>']))) =
        [' '] := by
      rw [List.takeWhile_cons_of_pos (by decide)]
      cases hn : c.name with
      | nil => exact absurd hn h5
      | cons a t =>
        have ha : isJsWs a = false := by
          have := h6
          rw [hn] at this
          simpa [headNotWs] using this
        rw [List.cons_append, List.takeWhile_cons_of_neg (p := isJsWs) (by simp [ha])]
    have ea : List.dropWhile isJsWs (' ' :: (c.name ++ '>' :: (c.text ++ ['<', '/', 'v', '>']))) =
        c.name ++ '>' :: (c.text ++ ['<', '/', 'v', '>']) := by
      rw [List.dropWhile_cons_of_pos (by decide)]
      apply dropWhile_ws_eq_self
      rw [headNotWs_append _ _ h5]
      exact h6
    have eg : List.takeWhile (fun ch => ch ≠ '>' : Char → Bool)
        (c.name ++ '>' :: (c.text ++ ['<', '/', 'v', '>'])) = c.name := by
      rw [takeWhile_append_all _ _ _ hnamegt,
        List.takeWhile_cons_of_neg (by simp), List.append_nil]
    have ed : List.dropWhile (fun ch => ch ≠ '>' : Char → Bool)
        (c.name ++ '>' :: (c.text ++ ['<', '/', 'v', '>'])) =
        '>' :: (c.text ++ ['<', '/', 'v', '>']) := by
      rw [dropWhile_append_all _ _ _ hnamegt,
        List.dropWhile_cons_of_neg (by simp)]
    have hgne : c.name.isEmpty = false := by
      cases hn : c.name with
      | nil => exact absurd hn h5
      | cons a t => rfl
    simp only [matchTagHead, em, ea, eg, ed]
    simp [hgne]
  have eTail : matchTagTail (c.text ++ ['<', '/', 'v', '>']) = some c.text := by
    have eg2 : List.takeWhile (fun ch => ch ≠ '<' : Char → Bool)
        (c.text ++ ['<', '/', 'v', '>']) = c.text := by
      rw [takeWhile_append_all _ _ _ htextlt,
        List.takeWhile_cons_of_neg (by simp), List.append_nil]
    have ed2 : List.dropWhile (fun ch => ch ≠ '<' : Char → Bool)
        (c.text ++ ['<', '/', 'v', '>']) = ['<', '/', 'v', '>'] := by
      rw [dropWhile_append_all _ _ _ htextlt,
        List.dropWhile_cons_of_neg (by simp)]
    simp only [matchTagTail, eg2, ed2]
  show matchSpeakerTag ('<' :: 'v' :: ' ' :: (c.name ++ '>' :: (c.text ++ ['<', '/', 'v', '>']))) =
    some (c.name, c.text)
  simp only [matchSpeakerTag, trySpeakerAt, eHead, eTail]

/-- A well-formed payload cue parses to its trimmed name and text. -/
lemma cueEntry_payload (c : RawCue) (h : wfCueCore c = true) :
    cueEntry c.startTs (payloadChars c) = cueToEntry c := by
  simp only [cueEntry, matchSpeakerTag_payload c h, cueToEntry]

/-- The time-range line of a well-formed cue is unchanged by trimming. -/
lemma trim_tsLine (c : RawCue) (h : wfCueCore c = true) :
    trimChars (tsLineChars c) = tsLineChars c := by
  obtain ⟨h1, h2, h3, h4, _⟩ := wfCueCore_spec c h
  apply trimChars_eq_self
  · rw [show tsLineChars c = c.startTs ++ (' ' :: '-' :: '-' :: '>' :: ' ' :: c.endTs) from rfl,
      headNotWs_append _ _ h1]
    exact headNotWs_of_all_time c.startTs h2
  · rw [show tsLineChars c = (c.startTs ++ [' ', '-', '-', '>', ' ']) ++ c.endTs from by
      simp [tsLineChars],
      lastNotWs_append _ _ h3]
    exact lastNotWs_of_all_time c.endTs h4

/-- The payload line of a well-formed cue is unchanged by trimming. -/
lemma trim_payload (c : RawCue) : trimChars (payloadChars c) = payloadChars c := by
  apply trimChars_eq_self
  · rfl
  · rw [show payloadChars c =
      ('<' :: 'v' :: ' ' :: (c.name ++ ['>'] ++ c.text)) ++ ['<', '/', 'v', '>'] from by
        simp [payloadChars],
      lastNotWs_append _ _ (by simp)]
    decide

/-- The time-range line of a well-formed cue contains no newline. -/
lemma tsLine_no_nl (c : RawCue) (h : wfCueCore c = true) :
    ∀ ch ∈ tsLineChars c, ch ≠ '\n' := by
  obtain ⟨_, h2, _, h4, _⟩ := wfCueCore_spec c h
  intro ch hch he
  subst he
  simp only [tsLineChars, List.mem_append, List.mem_cons] at hch
  rcases hch with hin | hch
  · exact absurd (h2 '\n' hin) (by decide)
  · rcases hch with h | h | h | h | h | hin
    iterate 5 exact absurd h (by decide)
    exact absurd (h4 '\n' hin) (by decide)

/-- The payload line of a well-formed cue contains no newline. -/
lemma payload_no_nl (c : RawCue) (h : wfCueCore c = true) :
    ∀ ch ∈ payloadChars c, ch ≠ '\n' := by
  obtain ⟨_, _, _, _, _, _, _, h8, h9⟩ := wfCueCore_spec c h
  intro ch hch he
  subst he
  simp [payloadChars] at hch
  rcases hch with hin | hin
  · exact (h8 '\n' hin).2 rfl
  · exact (h9 '\n' hin).2 rfl

/-- The time-range line of a well-formed cue is non-empty. -/
lemma tsLine_ne_nil (c : RawCue) (h : wfCueCore c = true) :
    (tsLineChars c).isEmpty = false := by
  obtain ⟨h1, _⟩ := wfCueCore_spec c h
  cases hs : c.startTs with
  | nil => exact absurd hs h1
  | cons a t =>
    rw [show tsLineChars c = c.startTs ++ (' ' :: '-' :: '-' :: '>' :: ' ' :: c.endTs) from rfl, hs]
    rfl

/-- The time-range line of a well-formed cue is not the `WEBVTT`
header. -/
lemma tsLine_ne_webvtt (c : RawCue) (h : wfCueCore c = true) :
    tsLineChars c ≠ ['W', 'E', 'B', 'V', 'T', 'T'] := by
  obtain ⟨h1, h2, _⟩ := wfCueCore_spec c h
  cases hs : c.startTs with
  | nil => exact absurd hs h1
  | cons a t =>
    have ha : isTimeChar a = true := h2 a (by rw [hs]; exact List.mem_cons_self a t)
    rw [show tsLineChars c = c.startTs ++ (' ' :: '-' :: '-' :: '>' :: ' ' :: c.endTs) from rfl, hs]
    intro he
    have : a = 'W' := by
      have := congrArg (fun l => l.head?) he
      simpa using this
    subst this
    exact absurd ha (by decide)

/-! ## Whole-document lemmas -/

/-- The three rendered lines of a cue: a blank separator, the time-range
line, the payload line. -/
def cueLines (c : RawCue) : List (List Char) :=
  [[], tsLineChars c, payloadChars c]

/-- The rendered caption-track document: the `WEBVTT` header followed by
the rendered cues, one blank line before each. -/
def renderVTT (cues : List RawCue) : String :=
  String.mk (joinLines (['W', 'E', 'B', 'V', 'T', 'T'] :: (cues.map cueLines).flatten))

/-- After tokenization (trim plus blank-line filtering) the rendered
cue blocks reduce to their time-range and payload lines. -/
lemma filter_trim_cueBlocks :
    ∀ cues : List RawCue, (∀ c ∈ cues, wfCueCore c = true) →
      (((cues.map cueLines).flatten.map trimChars).filter (fun l => !l.isEmpty)) =
        (cues.map (fun c => [tsLineChars c, payloadChars c])).flatten := by
  intro cues h
  induction cues with
  | nil => rfl
  | cons c cs ih =>
    have hc := h c (List.mem_cons_self c cs)
    have e0 : ((c :: cs).map cueLines).flatten =
        cueLines c ++ (cs.map cueLines).flatten := rfl
    rw [e0, List.map_append, List.filter_append]
    have e1 : (cueLines c).map trimChars = [[], tsLineChars c, payloadChars c] := by
      simp only [cueLines, List.map_cons, List.map_nil]
      rw [trim_tsLine c hc, trim_payload c]
      rfl
    have e2 : ([[], tsLineChars c, payloadChars c].filter (fun l => !l.isEmpty)) =
        [tsLineChars c, payloadChars c] := by
      rw [List.filter_cons, if_neg (by simp)]
      rw [List.filter_cons, if_pos (by rw [tsLine_ne_nil c hc]; rfl)]
      rw [List.filter_cons, if_pos (by rfl)]
      rfl
    rw [e1, e2, ih (fun x hx => h x (List.mem_cons_of_mem c hx))]
    rfl

/-- Tokenizing a rendered document yields the header line followed by
the time-range and payload lines of the cues. -/
lemma vttLines_renderVTT (cues : List RawCue) (h : ∀ c ∈ cues, wfCueCore c = true) :
    vttLines (renderVTT cues) =
      ['W', 'E', 'B', 'V', 'T', 'T'] ::
        (cues.map (fun c => [tsLineChars c, payloadChars c])).flatten := by
  have hnl : ∀ l ∈ ['W', 'E', 'B', 'V', 'T', 'T'] :: (cues.map cueLines).flatten,
      ∀ ch ∈ l, ch ≠ '\n' := by
    intro l hl
    rcases List.mem_cons.mp hl with hl | hl
    · subst hl; decide
    · obtain ⟨li, hli, hmem⟩ := List.mem_flatten.mp hl
      obtain ⟨c, hc, hcl⟩ := List.mem_map.mp hli
      subst hcl
      simp only [cueLines, List.mem_cons, List.mem_singleton] at hmem
      rcases hmem with h0 | h0 | h0 | h0
      · subst h0; simp
      · subst h0; exact tsLine_no_nl c (h c hc)
      · subst h0; exact payload_no_nl c (h c hc)
      · simp only [List.not_mem_nil] at h0
  unfold vttLines renderVTT
  rw [show (String.mk (joinLines (['W', 'E', 'B', 'V', 'T', 'T'] ::
      (cues.map cueLines).flatten))).toList =
      joinLines (['W', 'E', 'B', 'V', 'T', 'T'] :: (cues.map cueLines).flatten) from rfl]
  rw [splitLines_joinLines _ (by simp) hnl]
  rw [List.map_cons]
  rw [show trimChars ['W', 'E', 'B', 'V', 'T', 'T'] = ['W', 'E', 'B', 'V', 'T', 'T'] from by decide]
  rw [List.filter_cons, if_pos (by rfl)]
  rw [filter_trim_cueBlocks cues h]

/-- Parsing the flattened time-range/payload line pairs of well-formed
cues yields exactly their entries, in order. -/
lemma parseCueLines_blocks :
    ∀ cues : List RawCue, (∀ c ∈ cues, wfCueCore c = true) →
      parseCueLines ((cues.map (fun c => [tsLineChars c, payloadChars c])).flatten) =
        cues.map cueToEntry := by
  intro cues h
  induction cues with
  | nil => rfl
  | cons c cs ih =>
    have hc := h c (List.mem_cons_self c cs)
    have hjoin : ((c :: cs).map (fun c => [tsLineChars c, payloadChars c])).flatten =
        tsLineChars c :: payloadChars c ::
          (cs.map (fun c => [tsLineChars c, payloadChars c])).flatten := rfl
    rw [hjoin]
    cases hrest : (cs.map (fun c => [tsLineChars c, payloadChars c])).flatten with
    | nil =>
      have hcs : cs = [] := by
        cases cs with
        | nil => rfl
        | cons d ds => simp at hrest
      subst hcs
      simp only [parseCueLines, containsArrow_tsLine c, if_pos rfl,
        matchTimeRange_tsLine c hc, cueEntry_payload c hc]
      rfl
    | cons l ls =>
      have hstep : parseCueLines (tsLineChars c :: payloadChars c :: l :: ls) =
          cueEntry c.startTs (payloadChars c) :: parseCueLines (l :: ls) := by
        rw [show parseCueLines (tsLineChars c :: payloadChars c :: l :: ls) =
            (if containsArrow (tsLineChars c) then
              match matchTimeRange (tsLineChars c) with
              | some ts => cueEntry ts (payloadChars c) :: parseCueLines (l :: ls)
              | none => parseCueLines (payloadChars c :: l :: ls)
            else parseCueLines (payloadChars c :: l :: ls)) from rfl]
        rw [containsArrow_tsLine c, if_pos rfl, matchTimeRange_tsLine c hc]
      rw [hstep, ← hrest, ih (fun x hx => h x (List.mem_cons_of_mem c hx)),
        cueEntry_payload c hc]
      rfl

/-- Full well-formedness of a rendered cue: structural well-formedness
plus a trimmed name different from the `Unknown` sentinel. -/
def wfCue (c : RawCue) : Bool :=
  wfCueCore c && decide (trimChars c.name ≠ ['U', 'n', 'k', 'n', 'o', 'w', 'n'])

lemma string_mk_injective {a b : List Char} (h : String.mk a = String.mk b) : a = b := by
  have := congrArg String.data h
  simpa using this

/-! ## Claim C4: well-formed cues parse to their entries -/

/-- C4: a caption-track text containing exactly the rendered well-formed
cues parses to exactly one entry per cue, in source order, each carrying
the start timestamp verbatim, the trimmed captured speaker name and the
trimmed captured text, and no entry falls back to the `Unknown`
speaker. -/
theorem parseVTT_wellFormed_cues :
    ∀ cues : List RawCue, (∀ c ∈ cues, wfCue c = true) →
      parseVTT (renderVTT cues) = cues.map cueToEntry ∧
      (parseVTT (renderVTT cues)).length = cues.length ∧
      (∀ e ∈ parseVTT (renderVTT cues), e.speaker ≠ "Unknown") := by
  intro cues h
  have hcore : ∀ c ∈ cues, wfCueCore c = true := by
    intro c hc
    have := h c hc
    simp only [wfCue, Bool.and_eq_true] at this
    exact this.1
  have hmain : parseVTT (renderVTT cues) = cues.map cueToEntry := by
    unfold parseVTT
    rw [vttLines_renderVTT cues hcore]
    rw [show skipHeader (['W', 'E', 'B', 'V', 'T', 'T'] ::
        (cues.map (fun c => [tsLineChars c, payloadChars c])).flatten) =
        (cues.map (fun c => [tsLineChars c, payloadChars c])).flatten from by
      simp [skipHeader]]
    exact parseCueLines_blocks cues hcore
  refine ⟨hmain, by rw [hmain]; simp, ?_⟩
  rw [hmain]
  intro e he
  obtain ⟨c, hc, hce⟩ := List.mem_map.mp he
  subst hce
  have hne : trimChars c.name ≠ ['U', 'n', 'k', 'n', 'o', 'w', 'n'] := by
    have := h c hc
    simp only [wfCue, Bool.and_eq_true, decide_eq_true_eq] at this
    exact this.2
  intro habs
  exact hne (string_mk_injective habs)

/-- C4 witness cue: the literal sample cue of the spec. -/
def sampleCue : RawCue :=
  ⟨"00:00:05.000".toList, "00:00:10.000".toList, "John Smith".toList,
    "Good morning everyone, let\x27s start the daily standup.".toList⟩

/-- C4 witness: the literal sample cue yields exactly the one entry
stated in the spec. -/
theorem parseVTT_wellFormed_cues_witness :
    parseVTT (renderVTT [sampleCue]) =
      [⟨"00:00:05.000", "John Smith",
        "Good morning everyone, let\x27s start the daily standup."⟩] :=
  ((parseVTT_wellFormed_cues [sampleCue] (by decide)).1).trans (by decide)

/-! ## Claim C5 (amended): unmatched payloads degrade to the trimmed line -/

/-- C5 amended: for every cue whose payload line does not match the
speaker pattern, `parseVTT` emits exactly one entry for the cue, with
speaker `Unknown` and text equal to the payload line as trimmed by the
line tokenizer (no further modification) — not the raw untrimmed source
line. -/
theorem parseVTT_fallback_unknown_trimmed_payload :
    ∀ p : List Char, (∀ ch ∈ p, ch ≠ '\n') → trimChars p ≠ [] →
      matchSpeakerTag (trimChars p) = none →
      parseVTT (String.mk ("WEBVTT\n00:00:05.000 --> 00:00:10.000\n".toList ++ p)) =
        [⟨"00:00:05.000", "Unknown", String.mk (trimChars p)⟩] := by
  intro p hnl hne hmatch
  have hdecomp : "WEBVTT\n00:00:05.000 --> 00:00:10.000\n".toList ++ p =
      "WEBVTT".toList ++ '\n' :: ("00:00:05.000 --> 00:00:10.000".toList ++ '\n' :: p) := rfl
  have htrimne : (trimChars p).isEmpty = false := by
    cases ht : trimChars p with
    | nil => exact absurd ht hne
    | cons a t => rfl
  unfold parseVTT vttLines
  rw [show (String.mk ("WEBVTT\n00:00:05.000 --> 00:00:10.000\n".toList ++ p)).toList =
      "WEBVTT\n00:00:05.000 --> 00:00:10.000\n".toList ++ p from rfl]
  rw [hdecomp]
  rw [splitLines_append_nl "WEBVTT".toList _ (by decide)]
  rw [splitLines_append_nl "00:00:05.000 --> 00:00:10.000".toList _ (by decide)]
  rw [splitLines_no_nl p hnl]
  rw [List.map_cons, List.map_cons, List.map_cons, List.map_nil]
  rw [show trimChars "WEBVTT".toList = "WEBVTT".toList from by decide]
  rw [show trimChars "00:00:05.000 --> 00:00:10.000".toList =
      "00:00:05.000 --> 00:00:10.000".toList from by decide]
  rw [List.filter_cons, if_pos (by rfl)]
  rw [List.filter_cons, if_pos (by rfl)]
  rw [List.filter_cons, if_pos (by rw [htrimne]; rfl)]
  rw [List.filter_nil]
  rw [show skipHeader ("WEBVTT".toList ::
      ["00:00:05.000 --> 00:00:10.000".toList, trimChars p]) =
      ["00:00:05.000 --> 00:00:10.000".toList, trimChars p] from by
    simp [skipHeader]]
  rw [show parseCueLines ["00:00:05.000 --> 00:00:10.000".toList, trimChars p] =
      (if containsArrow "00:00:05.000 --> 00:00:10.000".toList then
        match matchTimeRange "00:00:05.000 --> 00:00:10.000".toList with
        | some ts => cueEntry ts (trimChars p) :: parseCueLines []
        | none => parseCueLines [trimChars p]
      else parseCueLines [trimChars p]) from rfl]
  rw [show containsArrow "00:00:05.000 --> 00:00:10.000".toList = true from by decide]
  rw [if_pos rfl]
  rw [show matchTimeRange "00:00:05.000 --> 00:00:10.000".toList =
      some "00:00:05.000".toList from by decide]
  simp only [cueEntry, hmatch, parseCueLines]
  rfl

/-- C5 witness: a payload `  hi there  ` (no speaker tag, padded with
whitespace) yields one `Unknown` entry whose text is the trimmed
payload. -/
theorem parseVTT_fallback_unknown_trimmed_payload_witness :
    parseVTT (String.mk ("WEBVTT\n00:00:05.000 --> 00:00:10.000\n".toList ++
        "  hi there  ".toList)) =
      [⟨"00:00:05.000", "Unknown", "hi there"⟩] := by
  have h := parseVTT_fallback_unknown_trimmed_payload "  hi there  ".toList
    (by decide) (by decide) (by decide)
  exact h.trans (by decide)

/-! ## Claim C9: round-tripping parsed entries -/

/-- C9 counterexample source: the payload `x<y` has no speaker tag, so
its entry keeps `x<y` as text; reserializing that entry produces
`<v Unknown>x<y</v>`, whose stray `<` breaks the speaker pattern on the
second parse. -/
def roundtripSourceC9 : String := "WEBVTT\n00:00:01.000 --> 00:00:02.000\nx<y"

/-- An entry reserialized into raw cue form, as the claim prescribes: a
time-range line (reusing the start timestamp for both ends) followed by
a speaker-tagged payload line. -/
def entryCue (e : ParsedTranscriptEntry) : RawCue :=
  ⟨e.timestamp.toList, e.timestamp.toList, e.speaker.toList, e.text.toList⟩

/-- Reserialize parsed entries back into raw cue text. -/
def reserializeEntries (es : List ParsedTranscriptEntry) : String :=
  String.mk (joinLines
    (((es.map entryCue).map (fun c => [tsLineChars c, payloadChars c])).flatten))

/-- C9 counterexample: parsing, reserializing and parsing again does not
return the original entry list for the `x<y` fallback entry, so parsing
is not idempotent as a round-trip on every produced entry list. -/
theorem parseVTT_roundtrip_counterexample :
    parseVTT roundtripSourceC9 = [⟨"00:00:01.000", "Unknown", "x<y"⟩] ∧
    parseVTT (reserializeEntries (parseVTT roundtripSourceC9)) ≠
      parseVTT roundtripSourceC9 := by
  exact ⟨by rfl, by decide⟩

/-- Entries on which the round-trip is faithful: a non-empty timestamp
of time characters, a non-empty trimmed speaker containing neither `>`
nor a newline, and a trimmed text containing neither `<` nor a
newline. -/
def cleanEntry (e : ParsedTranscriptEntry) : Bool :=
  !e.timestamp.toList.isEmpty && e.timestamp.toList.all isTimeChar &&
  !e.speaker.toList.isEmpty && headNotWs e.speaker.toList && lastNotWs e.speaker.toList &&
  e.speaker.toList.all (fun ch => !(ch = '>' : Bool) && !(ch = '\n' : Bool)) &&
  headNotWs e.text.toList && lastNotWs e.text.toList &&
  e.text.toList.all (fun ch => !(ch = '<' : Bool) && !(ch = '\n' : Bool))

lemma cleanEntry_wfCueCore (e : ParsedTranscriptEntry) (h : cleanEntry e = true) :
    wfCueCore (entryCue e) = true := by
  simp only [cleanEntry, Bool.and_eq_true] at h
  obtain ⟨⟨⟨⟨⟨⟨⟨⟨h1, h2⟩, h3⟩, h4⟩, h5⟩, h6⟩, h7⟩, h8⟩, h9⟩ := h
  simp only [wfCueCore, entryCue, Bool.and_eq_true]
  exact ⟨⟨⟨⟨⟨⟨⟨⟨h1, h2⟩, h1⟩, h2⟩, h3⟩, h4⟩, h5⟩, h6⟩, h9⟩

lemma cueToEntry_entryCue (e : ParsedTranscriptEntry) (h : cleanEntry e = true) :
    cueToEntry (entryCue e) = e := by
  simp only [cleanEntry, Bool.and_eq_true] at h
  obtain ⟨⟨⟨⟨⟨⟨⟨⟨h1, h2⟩, h3⟩, h4⟩, h5⟩, h6⟩, h7⟩, h8⟩, h9⟩ := h
  simp only [cueToEntry, entryCue]
  rw [trimChars_eq_self _ h4 h5, trimChars_eq_self _ h7 h8]
  rfl

/-- Tokenizing the reserialized blocks is the identity: every line is
already trimmed and non-empty. -/
lemma filter_trim_entryBlocks :
    ∀ cues : List RawCue, (∀ c ∈ cues, wfCueCore c = true) →
      (((cues.map (fun c => [tsLineChars c, payloadChars c])).flatten.map
          trimChars).filter (fun l => !l.isEmpty)) =
        (cues.map (fun c => [tsLineChars c, payloadChars c])).flatten := by
  intro cues h
  induction cues with
  | nil => rfl
  | cons c cs ih =>
    have hc := h c (List.mem_cons_self c cs)
    have e0 : ((c :: cs).map (fun c => [tsLineChars c, payloadChars c])).flatten =
        [tsLineChars c, payloadChars c] ++
          (cs.map (fun c => [tsLineChars c, payloadChars c])).flatten := rfl
    rw [e0, List.map_append, List.filter_append]
    have e1 : ([tsLineChars c, payloadChars c].map trimChars) =
        [tsLineChars c, payloadChars c] := by
      simp only [List.map_cons, List.map_nil]
      rw [trim_tsLine c hc, trim_payload c]
    have e2 : ([tsLineChars c, payloadChars c].filter (fun l => !l.isEmpty)) =
        [tsLineChars c, payloadChars c] := by
      rw [List.filter_cons, if_pos (by rw [tsLine_ne_nil c hc]; rfl)]
      rw [List.filter_cons, if_pos (by rfl)]
      rfl
    rw [e1, e2, ih (fun x hx => h x (List.mem_cons_of_mem c hx))]

/-- C9 amended: the round-trip is the identity on entry lists whose
entries are clean (see `cleanEntry`); the counterexample shows the
restriction is necessary (`Unknown`-fallback texts can contain `<`). -/
theorem parseVTT_roundtrip_clean_entries :
    ∀ es : List ParsedTranscriptEntry, (∀ e ∈ es, cleanEntry e = true) →
      parseVTT (reserializeEntries es) = es := by
  intro es h
  have hcore : ∀ c ∈ es.map entryCue, wfCueCore c = true := by
    intro c hc
    obtain ⟨e, he, hce⟩ := List.mem_map.mp hc
    subst hce
    exact cleanEntry_wfCueCore e (h e he)
  cases es with
  | nil => rfl
  | cons e es' =>
    have he := h e (List.mem_cons_self e es')
    have hwf := cleanEntry_wfCueCore e he
    have hnl : ∀ l ∈ (((e :: es').map entryCue).map
        (fun c => [tsLineChars c, payloadChars c])).flatten, ∀ ch ∈ l, ch ≠ '\n' := by
      intro l hl
      obtain ⟨li, hli, hmem⟩ := List.mem_flatten.mp hl
      obtain ⟨c, hc, hcl⟩ := List.mem_map.mp hli
      subst hcl
      simp only [List.mem_cons, List.mem_singleton] at hmem
      rcases hmem with h0 | h0 | h0
      · subst h0; exact tsLine_no_nl c (hcore c hc)
      · subst h0; exact payload_no_nl c (hcore c hc)
      · simp only [List.not_mem_nil] at h0
    unfold reserializeEntries parseVTT vttLines
    rw [show (String.mk (joinLines ((((e :: es').map entryCue).map
        (fun c => [tsLineChars c, payloadChars c])).flatten))).toList =
        joinLines ((((e :: es').map entryCue).map
          (fun c => [tsLineChars c, payloadChars c])).flatten) from rfl]
    rw [splitLines_joinLines _ (by simp) hnl]
    rw [filter_trim_entryBlocks _ hcore]
    rw [show (((e :: es').map entryCue).map
        (fun c => [tsLineChars c, payloadChars c])).flatten =
        tsLineChars (entryCue e) :: payloadChars (entryCue e) ::
          ((es'.map entryCue).map (fun c => [tsLineChars c, payloadChars c])).flatten
        from rfl]
    rw [show skipHeader (tsLineChars (entryCue e) :: payloadChars (entryCue e) ::
        ((es'.map entryCue).map (fun c => [tsLineChars c, payloadChars c])).flatten) =
        tsLineChars (entryCue e) :: payloadChars (entryCue e) ::
          ((es'.map entryCue).map (fun c => [tsLineChars c, payloadChars c])).flatten
        from by
      have hne := tsLine_ne_webvtt (entryCue e) hwf
      simp [skipHeader, hne]]
    rw [show tsLineChars (entryCue e) :: payloadChars (entryCue e) ::
        ((es'.map entryCue).map (fun c => [tsLineChars c, payloadChars c])).flatten =
        (((e :: es').map entryCue).map
          (fun c => [tsLineChars c, payloadChars c])).flatten from rfl]
    rw [parseCueLines_blocks _ hcore]
    rw [List.map_map]
    have : ∀ x ∈ e :: es', (cueToEntry ∘ entryCue) x = id x := by
      intro x hx
      exact cueToEntry_entryCue x (h x hx)
    rw [List.map_congr_left this, List.map_id]

/-- C9 witness entries: a clean tagged entry and a clean
`Unknown`-fallback entry. -/
def cleanEntriesC9 : List ParsedTranscriptEntry :=
  [⟨"00:00:01.000", "Alice", "Hello there"⟩, ⟨"00:00:02.000", "Unknown", "ok"⟩]

/-- C9 witness: the round-trip reproduces the clean entries exactly. -/
theorem parseVTT_roundtrip_clean_entries_witness :
    parseVTT (reserializeEntries cleanEntriesC9) = cleanEntriesC9 :=
  parseVTT_roundtrip_clean_entries cleanEntriesC9 (by decide)

end MomBot
